import Mathlib

/-!
Shallow embedding of `src/cccp_computer.py` (khesoem/code-complexity-computation):
the CCCP Plan-Depth / MPI complexity computer.

Python `ast` expression nodes are embedded as the inductive `Expr`, statements as
`Stmt`.  Python exceptions are modelled by the error type `CCError` and fallible
functions return `Option` / `Except CCError`.  Python sets of strings become
`Finset String`; Python `int` becomes `Int` (expression depths, which are built
purely by `max`/`+` from `0` and `1`, are `Nat` and are cast where they meet
`Int` arithmetic).
-/

/-- Expression context of a `Name` node: `ast.Load` or `ast.Store`. -/
inductive Ctx
| load
| store
deriving DecidableEq, Repr

/-- Embedding of the Python `ast.expr` nodes the evaluator dispatches on.
Operator tags (`type(node.op).__name__` in Python) are strings such as
`"Add"`.  `compare` keeps the list of comparison-operator tags (`ast.Compare.ops`)
and the comparator expressions.  `attribute` stands for `ast.Attribute`, which the
source handles only through its final `else` branches. -/
inductive Expr
| constant
| name (id : String) (ctx : Ctx)
| binop (op : String) (left : Expr) (right : Expr)
| compare (left : Expr) (ops : List String) (comparators : List Expr)
| unaryop (op : String) (operand : Expr)
| boolop (op : String) (values : List Expr)
| call (func : Expr) (args : List Expr)
| listLit (elts : List Expr)
| tupleLit (elts : List Expr)
| subscript (value : Expr) (slice : Expr)
| attribute (value : Expr) (attr : String)

/-- Embedding of the Python statement nodes `create_cctree` dispatches on.
`classDef` stands for `ast.ClassDef` and `otherStmt kind` for any further
statement kind outside the supported set; both reach the final
`raise NotImplementedError` in the source. -/
inductive Stmt
| assign (targets : List Expr) (value : Expr) (lineno : Int)
| augAssign (target : Expr) (op : String) (value : Expr) (lineno : Int)
| exprStmt (value : Expr) (lineno : Int)
| forS (target : Expr) (iter : Expr) (body : List Stmt) (orelse : List Stmt) (lineno : Int)
| whileS (test : Expr) (body : List Stmt) (orelse : List Stmt) (lineno : Int)
| ifS (test : Expr) (body : List Stmt) (orelse : List Stmt) (lineno : Int)
| breakS (lineno : Int)
| continueS (lineno : Int)
| passS (lineno : Int)
| importS (lineno : Int)
| importFrom (lineno : Int)
| classDef (name : String) (body : List Stmt) (lineno : Int)
| otherStmt (kind : String) (lineno : Int)

/-- The Python exceptions the analyzed unit can raise:
`valueError` is `ValueError: max() arg is an empty sequence`,
`typeError` is `TypeError: unhashable type: 'set'`, and
`notImplemented kind` is `NotImplementedError(f"Node type {kind} is not supported")` —
note that the message carries only the kind name, no line number. -/
inductive CCError
| valueError
| typeError
| notImplemented (kind : String)
deriving DecidableEq, Repr

/-- `type(node).__name__` for a statement node: the kind name used in the
`NotImplementedError` message. -/
def Stmt.kindName : Stmt → String
| .assign _ _ _ => "Assign"
| .augAssign _ _ _ _ => "AugAssign"
| .exprStmt _ _ => "Expr"
| .forS _ _ _ _ _ => "For"
| .whileS _ _ _ _ => "While"
| .ifS _ _ _ _ => "If"
| .breakS _ => "Break"
| .continueS _ => "Continue"
| .passS _ => "Pass"
| .importS _ => "Import"
| .importFrom _ => "ImportFrom"
| .classDef _ _ _ => "ClassDef"
| .otherStmt kind _ => kind

/-- Python `max` over a list of naturals; all call sites guard non-emptiness,
and for a non-empty list of naturals `foldl max 0` is exactly Python's `max`. -/
def natListMax (l : List Nat) : Nat := l.foldl max 0

/-- Python `set(s)` on a string: the set of its characters — each character is
itself a (one-character) string in Python.  Used by the `BoolOp` branch of
`expression_depth`, which calls `set(type(node.op).__name__)`. -/
def charSet (s : String) : Finset String :=
  (s.toList.map (fun c => String.mk [c])).toFinset

mutual

/-- `expression_depth(node)` from the source: returns `(depth, operator set)`,
or `none` when the Python code raises `ValueError` (`max()` over the empty
element list of an empty `ast.List`/`ast.Tuple` literal).
The `compare` case follows the source exactly: `expression_depth(node.comparators)`
dispatches to the `isinstance(node, list)` branch (`expression_depth_list` here),
and the tag unioned in is `type(node.ops).__name__`, which is the string `"list"`
because `node.ops` is a Python list.  The `boolop` case unions in
`set(type(node.op).__name__)`: the set of the characters of the operator name. -/
def expression_depth : Expr → Option (Nat × Finset String)
| .constant => some (0, ∅)
| .binop op l r => do
    let (left_depth, left_ops) ← expression_depth l
    let (right_depth, right_ops) ← expression_depth r
    let child_ops := left_ops ∪ right_ops
    let all_ops := child_ops ∪ {op}
    some (max left_depth right_depth + (if child_ops.card ≠ all_ops.card then 1 else 0), all_ops)
| .compare l _ops comparators => do
    let (left_depth, left_ops) ← expression_depth l
    let (right_depth, right_ops) ← expression_depth_list comparators
    let child_ops := left_ops ∪ right_ops
    let all_ops := child_ops ∪ {"list"}
    some (max left_depth right_depth + (if child_ops.card ≠ all_ops.card then 1 else 0), all_ops)
| .unaryop _ operand => do
    let (d, _) ← expression_depth operand
    some (d + 1, (∅ : Finset String))
| .boolop op values =>
    match values with
    | [] => some (0, ∅)
    | v :: vs => do
        let child_depths ← expression_depth_each (v :: vs)
        let max_depth := natListMax (child_depths.map (·.1))
        let child_ops := child_depths.foldl (fun acc p => acc ∪ p.2) ∅
        let all_ops := child_ops ∪ charSet op
        some (max_depth + (if child_ops.card ≠ all_ops.card then 1 else 0), all_ops)
| .call _ args =>
    match args with
    | [] => some (1, ∅)
    | a :: as_ => do
        let ds ← expression_depth_each (a :: as_)
        some (natListMax (ds.map (·.1)) + 1, (∅ : Finset String))
| .name _ _ => some (1, ∅)
| .listLit elts =>
    match elts with
    | [] => none
    | e :: es => do
        let ds ← expression_depth_each (e :: es)
        some (natListMax (ds.map (·.1)) + 1, (∅ : Finset String))
| .tupleLit elts =>
    match elts with
    | [] => none
    | e :: es => do
        let ds ← expression_depth_each (e :: es)
        some (natListMax (ds.map (·.1)) + 1, (∅ : Finset String))
| .subscript value slice =>
    match value with
    | .subscript v2 s2 => do
        let (dv, _) ← expression_depth (.subscript v2 s2)
        let (ds, _) ← expression_depth slice
        some (dv + ds + 1, (∅ : Finset String))
    | v => do
        let (dv, _) ← expression_depth v
        let (ds, _) ← expression_depth slice
        some (max dv ds + 1, (∅ : Finset String))
| .attribute _ _ => some (0, ∅)

/-- The `isinstance(node, list)` branch of `expression_depth`: a plain Python
list of expressions — empty list → `(1, set())`, else the max of the element
depths (no `+1`) with an empty operator set. -/
def expression_depth_list : List Expr → Option (Nat × Finset String)
| [] => some (1, ∅)
| e :: es => do
    let ds ← expression_depth_each (e :: es)
    some (natListMax (ds.map (·.1)), (∅ : Finset String))

/-- Evaluates `expression_depth` on each element left to right, propagating the
first failure — the evaluation order of Python's list comprehensions and
`max(...)` generators over child expressions. -/
def expression_depth_each : List Expr → Option (List (Nat × Finset String))
| [] => some []
| e :: es => do
    let p ← expression_depth e
    let ps ← expression_depth_each es
    some (p :: ps)

end

mutual

/-- `get_expression_identifiers(node, exclude_store_identifiers)` from the source.
Total (no Python exception can arise).  Faithful detail: every recursive call in
the source omits the keyword argument, so the exclusion flag is **not**
propagated to children — it only affects a `Name` examined at the top level.
`get_expression_identifiers_list` plays the role of the recursive calls made on
lists of expressions (the `isinstance(node, list)` branch and the `for`-loops
over `values`/`args`/`elts`), all of which use the default `False` flag. -/
def get_expression_identifiers (node : Expr) (exclude_store_identifiers : Bool) : Finset String :=
  match node with
  | .constant => ∅
  | .binop _ l r => get_expression_identifiers l false ∪ get_expression_identifiers r false
  | .compare l _ comparators =>
      get_expression_identifiers l false ∪ get_expression_identifiers_list comparators
  | .unaryop _ operand => get_expression_identifiers operand false
  | .boolop _ values => get_expression_identifiers_list values
  | .call func args =>
      (match func with | .name id _ => {id} | _ => ∅) ∪ get_expression_identifiers_list args
  | .name id ctx => if exclude_store_identifiers && ctx == Ctx.store then ∅ else {id}
  | .listLit elts => get_expression_identifiers_list elts
  | .tupleLit elts => get_expression_identifiers_list elts
  | .subscript value slice =>
      get_expression_identifiers value false ∪ get_expression_identifiers slice false
  | .attribute _ _ => ∅

/-- Union of `get_expression_identifiers` (with the default `False` flag) over a
list of expressions. -/
def get_expression_identifiers_list : List Expr → Finset String
| [] => ∅
| e :: es => get_expression_identifiers e false ∪ get_expression_identifiers_list es

end

/-- Lifts the result of an expression-depth computation into the builder's
error monad: a `ValueError` escaping from `expression_depth` propagates. -/
def liftVE : Option (Nat × Finset String) → Except CCError (Nat × Finset String)
| some p => .ok p
| none => .error .valueError

/-- Same lifting for the elementwise variant. -/
def liftVEs : Option (List (Nat × Finset String)) → Except CCError (List (Nat × Finset String))
| some l => .ok l
| none => .error .valueError

/-- The control-flow tree node of the source's `CCTree` class.  The
back-reference `self.node` to the originating AST node is never read by the
two aggregators and is not modelled. -/
inductive CCTree
| mk (plan_depth : Int) (line : Int) (branch_depth : Int) (mpi : Int) (subtrees : List CCTree)

def CCTree.plan_depth : CCTree → Int
| .mk pd _ _ _ _ => pd

def CCTree.line : CCTree → Int
| .mk _ l _ _ _ => l

def CCTree.branch_depth : CCTree → Int
| .mk _ _ bd _ _ => bd

def CCTree.mpi : CCTree → Int
| .mk _ _ _ m _ => m

def CCTree.subtrees : CCTree → List CCTree
| .mk _ _ _ _ ts => ts

mutual

/-- `CCTree.get_depth_plan` from the source: a node with no subtrees returns its
own `plan_depth`; otherwise the maximum of `get_depth_plan` over the subtrees
(the node's own `plan_depth` is not consulted). -/
def CCTree.get_depth_plan : CCTree → Int
| .mk pd _ _ _ [] => pd
| .mk _ _ _ _ (c :: cs) => CCTree.get_depth_plan_max c cs
termination_by t => sizeOf t
decreasing_by
  all_goals simp_wf
  all_goals omega

/-- Python's `max(child.get_depth_plan() for child in self.subtrees)` over the
non-empty list `c :: cs`. -/
def CCTree.get_depth_plan_max (c : CCTree) (cs : List CCTree) : Int :=
  match cs with
  | [] => CCTree.get_depth_plan c
  | c2 :: cs2 => max (CCTree.get_depth_plan c) (CCTree.get_depth_plan_max c2 cs2)
termination_by sizeOf c + sizeOf cs
decreasing_by
  all_goals simp_wf
  all_goals omega

end

mutual

/-- `CCTree.get_mpi` from the source: a node with no subtrees returns its own
`mpi`; otherwise the maximum of its own `mpi` and of `get_mpi` over the
subtrees. -/
def CCTree.get_mpi : CCTree → Int
| .mk _ _ _ m [] => m
| .mk _ _ _ m (c :: cs) => max m (CCTree.get_mpi_max c cs)
termination_by t => sizeOf t
decreasing_by
  all_goals simp_wf
  all_goals omega

/-- Python's `max(child.get_mpi() for child in self.subtrees)` over the
non-empty list `c :: cs`. -/
def CCTree.get_mpi_max (c : CCTree) (cs : List CCTree) : Int :=
  match cs with
  | [] => CCTree.get_mpi c
  | c2 :: cs2 => max (CCTree.get_mpi c) (CCTree.get_mpi_max c2 cs2)
termination_by sizeOf c + sizeOf cs
decreasing_by
  all_goals simp_wf
  all_goals omega

end

mutual

/-- `create_cctree(node, parent_plan_depth, branch_depth)` from the source, for
statement nodes (the `ast.Module` case of the single Python function is
`create_cctree_module` below; the recursion over a statement body list is
`create_cctree_list`).  Returns the built `CCTree` or the Python exception.
Every branch follows the source's own evaluation order, so the first failing
operation determines the error.  In the `Expr`-statement case the guard
`isinstance(node.value, ast.Call)` fails for a non-call value and control
falls through to the final `raise NotImplementedError`; when the callee is not
an `ast.Name`, the source builds the set `{set()}`, which raises
`TypeError: unhashable type: 'set'` (`CCError.typeError`).  `For` and `While`
iterate only over `node.body`: their `orelse` field is never read. -/
def create_cctree (node : Stmt) (parent_plan_depth : Int) (branch_depth : Int) :
    Except CCError CCTree :=
  match node with
  | .assign targets value lineno => do
      let (exp_depth, _) ← liftVE (expression_depth value)
      let target_pairs ← liftVEs (expression_depth_each targets)
      let left_depth ← match target_pairs with
        | [] => (Except.error CCError.valueError : Except CCError Nat)
        | ps => Except.ok (natListMax (ps.map (·.1)))
      let assignment_depth := max (exp_depth + 1) left_depth
      let plan_depth : Int := ↑assignment_depth + parent_plan_depth
      let exp_identifiers := get_expression_identifiers value false
      let loaded_identifiers :=
        targets.foldl (fun acc target => acc ∪ get_expression_identifiers target true)
          exp_identifiers
      let mpi : Int := ↑loaded_identifiers.card + ↑assignment_depth + branch_depth - 1
      .ok (.mk plan_depth lineno branch_depth mpi [])
  | .augAssign target _ value lineno => do
      let (exp_depth, _) ← liftVE (expression_depth value)
      let (left_depth, _) ← liftVE (expression_depth target)
      let assignment_depth := max (exp_depth + 1) left_depth + 1
      let plan_depth : Int := ↑assignment_depth + parent_plan_depth
      let loaded_identifiers :=
        get_expression_identifiers value false ∪ get_expression_identifiers target false
      let mpi : Int := ↑loaded_identifiers.card + ↑assignment_depth + branch_depth -
        (if exp_depth > 0 then 1 else 0)
      .ok (.mk plan_depth lineno branch_depth mpi [])
  | .exprStmt value lineno =>
      match value with
      | .call func args =>
        match args with
        | [] => .ok (.mk (parent_plan_depth + 1) lineno branch_depth (branch_depth + 1) [])
        | a :: as_ => do
            let arg_pairs ← liftVEs (expression_depth_each (a :: as_))
            let exp_depth := natListMax (arg_pairs.map (·.1))
            let plan_depth : Int := ↑exp_depth + 1 + parent_plan_depth
            let exp_identifiers := get_expression_identifiers (.call func args) false
            let func_id ← match func with
              | .name id _ => (Except.ok id : Except CCError String)
              | _ => Except.error CCError.typeError
            let loaded_identifiers := exp_identifiers ∪ {func_id}
            let mpi : Int := ↑loaded_identifiers.card + ↑exp_depth + branch_depth +
              (if loaded_identifiers.card = 0 then 1 else 0)
            .ok (.mk plan_depth lineno branch_depth mpi [])
      | _ => .error (.notImplemented "Expr")
  | .forS _ iter body _ lineno => do
      let (iter_depth, _) ← liftVE (expression_depth iter)
      let for_depth : Int := parent_plan_depth + ↑iter_depth + 1
      let subtrees ← create_cctree_list body for_depth (branch_depth + 1)
      let loaded_identifiers := get_expression_identifiers iter false
      let mpi : Int := ↑loaded_identifiers.card + ↑iter_depth + branch_depth +
        (if loaded_identifiers.card = 0 then 1 else 0)
      .ok (.mk for_depth lineno branch_depth mpi subtrees)
  | .whileS test body _ lineno => do
      let (test_depth, _) ← liftVE (expression_depth test)
      let while_depth : Int := parent_plan_depth + ↑test_depth + 1
      let subtrees ← create_cctree_list body while_depth (branch_depth + 1)
      let loaded_identifiers := get_expression_identifiers test false
      let mpi : Int := ↑loaded_identifiers.card + ↑test_depth + branch_depth +
        (if loaded_identifiers.card = 0 then 1 else 0)
      .ok (.mk while_depth lineno branch_depth mpi subtrees)
  | .ifS test body orelse lineno => do
      let (test_depth, _) ← liftVE (expression_depth test)
      let if_depth : Int := parent_plan_depth + ↑test_depth + 1
      let body_trees ← create_cctree_list body if_depth (branch_depth + 1)
      let orelse_trees ← create_cctree_list orelse if_depth (branch_depth + 1)
      let loaded_identifiers := get_expression_identifiers test false
      let mpi : Int := ↑loaded_identifiers.card + ↑test_depth + branch_depth +
        (if loaded_identifiers.card = 0 then 1 else 0)
      .ok (.mk if_depth lineno branch_depth mpi (body_trees ++ orelse_trees))
  | .breakS lineno =>
      .ok (.mk (parent_plan_depth + 1) lineno branch_depth (branch_depth + 1) [])
  | .continueS lineno =>
      .ok (.mk (parent_plan_depth + 1) lineno branch_depth (branch_depth + 1) [])
  | .passS lineno =>
      .ok (.mk (parent_plan_depth + 1) lineno branch_depth (branch_depth + 1) [])
  | .importS lineno =>
      .ok (.mk (parent_plan_depth + 1) lineno branch_depth (branch_depth + 1) [])
  | .importFrom lineno =>
      .ok (.mk (parent_plan_depth + 1) lineno branch_depth (branch_depth + 1) [])
  | .classDef _ _ _ => .error (.notImplemented "ClassDef")
  | .otherStmt kind _ => .error (.notImplemented kind)

/-- Builds the subtrees of a statement list in source order; the first failing
child aborts the whole build (Python's loop raises out of `create_cctree`). -/
def create_cctree_list (body : List Stmt) (parent_plan_depth : Int) (branch_depth : Int) :
    Except CCError (List CCTree) :=
  match body with
  | [] => .ok []
  | s :: ss => do
      let t ← create_cctree s parent_plan_depth branch_depth
      let ts ← create_cctree_list ss parent_plan_depth branch_depth
      .ok (t :: ts)

end

/-- The `ast.Module` case of `create_cctree`: one child per top-level statement
(`ast.iter_child_nodes` yields the module body), the node itself getting the
given `parent_plan_depth`, line `0`, the given `branch_depth` and `mpi = 0`. -/
def create_cctree_module (body : List Stmt) (parent_plan_depth : Int) (branch_depth : Int) :
    Except CCError CCTree := do
  let children ← create_cctree_list body parent_plan_depth branch_depth
  .ok (.mk parent_plan_depth 0 branch_depth 0 children)

/-- The scoring core of `compute_cccp`: build the control tree of a parsed
module with `create_cctree(tree, 0, 0)` and read off
`(cct.get_depth_plan(), cct.get_mpi())`.  File reading and printing are not
modelled. -/
def compute_cccp (body : List Stmt) : Except CCError (Int × Int) := do
  let cct ← create_cctree_module body 0 0
  .ok (cct.get_depth_plan, cct.get_mpi)

/-- Discriminates the unsupported-construct failure (`NotImplementedError`)
from the other exceptions the builder can raise. -/
def isNotImplementedError : CCError → Bool
| .notImplemented _ => true
| _ => false

/-- A statement whose kind the builder's dispatch accepts, i.e. one that does
not reach the final `raise NotImplementedError`.  An `Expr` statement counts
only when its value is a call, exactly as the source's guard
`isinstance(node, ast.Expr) and isinstance(node.value, ast.Call)` demands. -/
def Stmt.isSupportedKind : Stmt → Bool
| .exprStmt v _ => (match v with | .call _ _ => true | _ => false)
| .classDef _ _ _ => false
| .otherStmt _ _ => false
| _ => true

mutual

/-- Every statement the builder actually visits from this statement is of a
supported kind.  Mirrors the builder's traversal: `for`/`while` visit only
their `body` (their `orelse` is ignored by the source), `if` visits `body`
and `orelse`. -/
def Stmt.supportedTree : Stmt → Bool
| .forS _ _ body _ _ => Stmt.supportedForest body
| .whileS _ body _ _ => Stmt.supportedForest body
| .ifS _ body orelse _ => Stmt.supportedForest body && Stmt.supportedForest orelse
| .exprStmt v _ => (match v with | .call _ _ => true | _ => false)
| .classDef _ _ _ => false
| .otherStmt _ _ => false
| _ => true

/-- `Stmt.supportedTree` on every statement of a list. -/
def Stmt.supportedForest : List Stmt → Bool
| [] => true
| s :: ss => Stmt.supportedTree s && Stmt.supportedForest ss

end

/-- The three branch-introducing statement kinds: `if`, `for`, `while`. -/
def Stmt.isBranching : Stmt → Bool
| .forS _ _ _ _ _ => true
| .whileS _ _ _ _ => true
| .ifS _ _ _ _ => true
| _ => false

/-- Modelled from the spec: the combination rule the specification states for a
comparison — "same combination rule as binary operation, treating the
comparator list as the right side", with **the comparison's own operator tags**
(`ops`) unioned into the child operator sets.  Used only to compare against
what `expression_depth` actually computes. -/
def compare_rule_claimed (l : Expr) (ops : List String) (comparators : List Expr) :
    Option (Nat × Finset String) := do
  let (left_depth, left_ops) ← expression_depth l
  let (right_depth, right_ops) ← expression_depth_list comparators
  let child_ops := left_ops ∪ right_ops
  let all_ops := child_ops ∪ ops.toFinset
  some (max left_depth right_depth + (if child_ops.card ≠ all_ops.card then 1 else 0), all_ops)

/-! ## Helper lemmas -/

theorem exceptBind_ok_iff {α β : Type} {x : Except CCError α} {f : α → Except CCError β} {b : β} :
    (x >>= f) = .ok b ↔ ∃ a, x = .ok a ∧ f a = .ok b := by
  cases x <;> simp [Bind.bind, Except.bind]

theorem exceptBind_error_iff {α β : Type} {x : Except CCError α} {f : α → Except CCError β}
    {e : CCError} :
    (x >>= f) = .error e ↔ x = .error e ∨ ∃ a, x = .ok a ∧ f a = .error e := by
  cases x <;> simp [Bind.bind, Except.bind]

/-- Every statement node the builder returns carries the `branch_depth` it was
called with. -/
theorem create_cctree_branch_depth :
    ∀ s pd bd t, create_cctree s pd bd = .ok t → t.branch_depth = bd := by
  intro s pd bd t h
  cases s <;>
    simp only [create_cctree] at h <;>
    (repeat' first
      | (rw [exceptBind_ok_iff] at h; obtain ⟨_, _, h⟩ := h)
      | split at h) <;>
    (first | (injection h with h; subst h; rfl) | exact Except.noConfusion h)

/-- Every tree in the list built by `create_cctree_list` comes from building one
of the statements of the list with the same arguments. -/
theorem create_cctree_list_ok_mem :
    ∀ l pd bd ts, create_cctree_list l pd bd = .ok ts →
      ∀ t ∈ ts, ∃ s ∈ l, create_cctree s pd bd = .ok t := by
  intro l
  induction l with
  | nil =>
      intro pd bd ts h t ht
      simp only [create_cctree_list] at h
      injection h with h
      subst h
      simp at ht
  | cons s ss ih =>
      intro pd bd ts h t ht
      simp only [create_cctree_list] at h
      rw [exceptBind_ok_iff] at h
      obtain ⟨t1, h1, h⟩ := h
      rw [exceptBind_ok_iff] at h
      obtain ⟨ts1, h2, h⟩ := h
      injection h with h
      subst h
      rcases List.mem_cons.mp ht with rfl | hmem
      · exact ⟨s, List.mem_cons_self s ss, h1⟩
      · obtain ⟨s2, hs2, hc⟩ := ih pd bd ts1 h2 t hmem
        exact ⟨s2, List.mem_cons_of_mem s hs2, hc⟩

/-- All children built from a statement list carry the `branch_depth` they were
built with. -/
theorem create_cctree_list_branch_depth :
    ∀ l pd bd ts, create_cctree_list l pd bd = .ok ts → ∀ t ∈ ts, t.branch_depth = bd := by
  intro l pd bd ts h t ht
  obtain ⟨s, _, hc⟩ := create_cctree_list_ok_mem l pd bd ts h t ht
  exact create_cctree_branch_depth s pd bd t hc

/-- Lower bound for the Python `max` over the plan depths of a non-empty child
list. -/
theorem get_depth_plan_max_nonneg :
    ∀ cs c, 0 ≤ CCTree.get_depth_plan c → (∀ x ∈ cs, 0 ≤ CCTree.get_depth_plan x) →
      0 ≤ CCTree.get_depth_plan_max c cs := by
  intro cs
  induction cs with
  | nil =>
      intro c hc _
      simpa [CCTree.get_depth_plan_max] using hc
  | cons c2 cs2 ih =>
      intro c hc hall
      rw [CCTree.get_depth_plan_max]
      have h2 := ih c2 (hall c2 (List.mem_cons_self c2 cs2))
        (fun x hx => hall x (List.mem_cons_of_mem c2 hx))
      omega

/-- Lower bound for the Python `max` over the mpi values of a non-empty child
list. -/
theorem get_mpi_max_nonneg :
    ∀ cs c, 0 ≤ CCTree.get_mpi c → (∀ x ∈ cs, 0 ≤ CCTree.get_mpi x) →
      0 ≤ CCTree.get_mpi_max c cs := by
  intro cs
  induction cs with
  | nil =>
      intro c hc _
      simpa [CCTree.get_mpi_max] using hc
  | cons c2 cs2 ih =>
      intro c hc hall
      rw [CCTree.get_mpi_max]
      have h2 := ih c2 (hall c2 (List.mem_cons_self c2 cs2))
        (fun x hx => hall x (List.mem_cons_of_mem c2 hx))
      omega

/-- A node with non-negative `plan_depth` and children of non-negative
aggregate plan depth has non-negative aggregate plan depth. -/
theorem get_depth_plan_nonneg_of (pd line bd m : Int) (subs : List CCTree) (h1 : 0 ≤ pd)
    (h2 : ∀ c ∈ subs, 0 ≤ CCTree.get_depth_plan c) :
    0 ≤ CCTree.get_depth_plan (.mk pd line bd m subs) := by
  cases subs with
  | nil => simpa [CCTree.get_depth_plan] using h1
  | cons c cs =>
      rw [CCTree.get_depth_plan]
      exact get_depth_plan_max_nonneg cs c (h2 c (List.mem_cons_self c cs))
        (fun x hx => h2 x (List.mem_cons_of_mem c hx))

/-- A node with non-negative own `mpi` and children of non-negative aggregate
mpi has non-negative aggregate mpi. -/
theorem get_mpi_nonneg_of (pd line bd m : Int) (subs : List CCTree) (h1 : 0 ≤ m)
    (h2 : ∀ c ∈ subs, 0 ≤ CCTree.get_mpi c) :
    0 ≤ CCTree.get_mpi (.mk pd line bd m subs) := by
  cases subs with
  | nil => simpa [CCTree.get_mpi] using h1
  | cons c cs =>
      rw [CCTree.get_mpi]
      have := get_mpi_max_nonneg cs c (h2 c (List.mem_cons_self c cs))
        (fun x hx => h2 x (List.mem_cons_of_mem c hx))
      omega

mutual

theorem create_ok_scores_nonneg (s : Stmt) (pd bd : Int) (hpd : 0 ≤ pd) (hbd : 0 ≤ bd)
    (t : CCTree) (h : create_cctree s pd bd = .ok t) :
    0 ≤ t.get_depth_plan ∧ 0 ≤ t.get_mpi := by
  cases s with
  | forS target iter body orelse lineno =>
      simp only [create_cctree] at h
      rw [exceptBind_ok_iff] at h
      obtain ⟨p1, h1, h⟩ := h
      rw [exceptBind_ok_iff] at h
      obtain ⟨ts, hts, h⟩ := h
      injection h with h
      subst h
      have hchild := create_list_ok_scores_nonneg body (pd + ↑p1.1 + 1) (bd + 1)
        (by omega) (by omega) ts hts
      constructor
      · exact get_depth_plan_nonneg_of _ _ _ _ _ (by omega) (fun c hc => (hchild c hc).1)
      · exact get_mpi_nonneg_of _ _ _ _ _ (by positivity) (fun c hc => (hchild c hc).2)
  | whileS test body orelse lineno =>
      simp only [create_cctree] at h
      rw [exceptBind_ok_iff] at h
      obtain ⟨p1, h1, h⟩ := h
      rw [exceptBind_ok_iff] at h
      obtain ⟨ts, hts, h⟩ := h
      injection h with h
      subst h
      have hchild := create_list_ok_scores_nonneg body (pd + ↑p1.1 + 1) (bd + 1)
        (by omega) (by omega) ts hts
      constructor
      · exact get_depth_plan_nonneg_of _ _ _ _ _ (by omega) (fun c hc => (hchild c hc).1)
      · exact get_mpi_nonneg_of _ _ _ _ _ (by positivity) (fun c hc => (hchild c hc).2)
  | ifS test body orelse lineno =>
      simp only [create_cctree] at h
      rw [exceptBind_ok_iff] at h
      obtain ⟨p1, h1, h⟩ := h
      rw [exceptBind_ok_iff] at h
      obtain ⟨ts1, hts1, h⟩ := h
      rw [exceptBind_ok_iff] at h
      obtain ⟨ts2, hts2, h⟩ := h
      injection h with h
      subst h
      have hchild1 := create_list_ok_scores_nonneg body (pd + ↑p1.1 + 1) (bd + 1)
        (by omega) (by omega) ts1 hts1
      have hchild2 := create_list_ok_scores_nonneg orelse (pd + ↑p1.1 + 1) (bd + 1)
        (by omega) (by omega) ts2 hts2
      have hchild : ∀ c ∈ ts1 ++ ts2, 0 ≤ c.get_depth_plan ∧ 0 ≤ c.get_mpi := by
        intro c hc
        rcases List.mem_append.mp hc with hc1 | hc2
        · exact hchild1 c hc1
        · exact hchild2 c hc2
      constructor
      · exact get_depth_plan_nonneg_of _ _ _ _ _ (by omega) (fun c hc => (hchild c hc).1)
      · exact get_mpi_nonneg_of _ _ _ _ _ (by positivity) (fun c hc => (hchild c hc).2)
  | _ =>
      simp only [create_cctree] at h <;>
      (repeat' first
        | (rw [exceptBind_ok_iff] at h; obtain ⟨_, _, h⟩ := h)
        | split at h) <;>
      (first
        | exact Except.noConfusion h
        | (injection h with h; subst h;
           refine ⟨?_, ?_⟩ <;> simp [CCTree.get_depth_plan, CCTree.get_mpi] <;>
             (try split) <;> omega))
termination_by sizeOf s

theorem create_list_ok_scores_nonneg (l : List Stmt) (pd bd : Int) (hpd : 0 ≤ pd)
    (hbd : 0 ≤ bd) (ts : List CCTree) (h : create_cctree_list l pd bd = .ok ts) :
    ∀ t ∈ ts, 0 ≤ t.get_depth_plan ∧ 0 ≤ t.get_mpi := by
  cases l with
  | nil =>
      simp only [create_cctree_list] at h
      injection h with h
      subst h
      intro t ht
      simp at ht
  | cons s ss =>
      simp only [create_cctree_list] at h
      rw [exceptBind_ok_iff] at h
      obtain ⟨t1, h1, h⟩ := h
      rw [exceptBind_ok_iff] at h
      obtain ⟨ts1, h2, h⟩ := h
      injection h with h
      subst h
      intro t ht
      rcases List.mem_cons.mp ht with rfl | hmem
      · exact create_ok_scores_nonneg s pd bd hpd hbd t h1
      · exact create_list_ok_scores_nonneg ss pd bd hpd hbd ts1 h2 t hmem
termination_by sizeOf l

end

/-- `liftVE` can only fail with `valueError`. -/
theorem liftVE_error {o e} (h : liftVE o = .error e) : e = CCError.valueError := by
  cases o <;> simp [liftVE] at h <;> simp [h]

/-- `liftVEs` can only fail with `valueError`. -/
theorem liftVEs_error {o e} (h : liftVEs o = .error e) : e = CCError.valueError := by
  cases o <;> simp [liftVEs] at h <;> simp [h]

mutual

theorem create_supported_no_notimpl (s : Stmt) (pd bd : Int)
    (hsup : s.supportedTree = true) (e : CCError) (h : create_cctree s pd bd = .error e) :
    isNotImplementedError e = false := by
  cases s with
  | assign targets value lineno =>
      simp only [create_cctree] at h
      rw [exceptBind_error_iff] at h
      rcases h with h | ⟨p1, h1, h⟩
      · rw [liftVE_error h]; rfl
      rw [exceptBind_error_iff] at h
      rcases h with h | ⟨p2, h2, h⟩
      · rw [liftVEs_error h]; rfl
      split at h
      · rw [exceptBind_error_iff] at h
        rcases h with h | ⟨p3, h3, h⟩
        · injection h with h; rw [← h]; rfl
        · exact Except.noConfusion h
      · rw [exceptBind_error_iff] at h
        rcases h with h | ⟨p3, h3, h⟩
        · exact Except.noConfusion h
        · exact Except.noConfusion h
  | augAssign target op value lineno =>
      simp only [create_cctree] at h
      rw [exceptBind_error_iff] at h
      rcases h with h | ⟨p1, h1, h⟩
      · rw [liftVE_error h]; rfl
      rw [exceptBind_error_iff] at h
      rcases h with h | ⟨p2, h2, h⟩
      · rw [liftVE_error h]; rfl
      exact Except.noConfusion h
  | exprStmt value lineno =>
      simp only [create_cctree] at h
      split at h
      · rename_i func args
        cases args with
        | nil => exact Except.noConfusion h
        | cons a as_ =>
            rw [exceptBind_error_iff] at h
            rcases h with h | ⟨p1, h1, h⟩
            · rw [liftVEs_error h]; rfl
            split at h
            · rw [exceptBind_error_iff] at h
              rcases h with h | ⟨p2, h2, h⟩
              · exact Except.noConfusion h
              · exact Except.noConfusion h
            · rw [exceptBind_error_iff] at h
              rcases h with h | ⟨p2, h2, h⟩
              · injection h with h; rw [← h]; rfl
              · exact Except.noConfusion h
      · rename_i hnotcall
        simp only [Stmt.supportedTree] at hsup
        exact absurd hsup (by simp)
  | forS target iter body orelse lineno =>
      simp only [create_cctree] at h
      simp only [Stmt.supportedTree] at hsup
      rw [exceptBind_error_iff] at h
      rcases h with h | ⟨p1, h1, h⟩
      · rw [liftVE_error h]; rfl
      rw [exceptBind_error_iff] at h
      rcases h with h | ⟨ts, hts, h⟩
      · exact create_list_supported_no_notimpl body _ _ hsup e h
      · exact Except.noConfusion h
  | whileS test body orelse lineno =>
      simp only [create_cctree] at h
      simp only [Stmt.supportedTree] at hsup
      rw [exceptBind_error_iff] at h
      rcases h with h | ⟨p1, h1, h⟩
      · rw [liftVE_error h]; rfl
      rw [exceptBind_error_iff] at h
      rcases h with h | ⟨ts, hts, h⟩
      · exact create_list_supported_no_notimpl body _ _ hsup e h
      · exact Except.noConfusion h
  | ifS test body orelse lineno =>
      simp only [create_cctree] at h
      simp only [Stmt.supportedTree, Bool.and_eq_true] at hsup
      rw [exceptBind_error_iff] at h
      rcases h with h | ⟨p1, h1, h⟩
      · rw [liftVE_error h]; rfl
      rw [exceptBind_error_iff] at h
      rcases h with h | ⟨ts1, hts1, h⟩
      · exact create_list_supported_no_notimpl body _ _ hsup.1 e h
      rw [exceptBind_error_iff] at h
      rcases h with h | ⟨ts2, hts2, h⟩
      · exact create_list_supported_no_notimpl orelse _ _ hsup.2 e h
      · exact Except.noConfusion h
  | breakS lineno => exact Except.noConfusion h
  | continueS lineno => exact Except.noConfusion h
  | passS lineno => exact Except.noConfusion h
  | importS lineno => exact Except.noConfusion h
  | importFrom lineno => exact Except.noConfusion h
  | classDef name body lineno => exact absurd hsup (by simp [Stmt.supportedTree])
  | otherStmt kind lineno => exact absurd hsup (by simp [Stmt.supportedTree])
termination_by sizeOf s

theorem create_list_supported_no_notimpl (l : List Stmt) (pd bd : Int)
    (hsup : Stmt.supportedForest l = true) (e : CCError)
    (h : create_cctree_list l pd bd = .error e) :
    isNotImplementedError e = false := by
  cases l with
  | nil => simp only [create_cctree_list] at h; exact Except.noConfusion h
  | cons s ss =>
      simp only [create_cctree_list] at h
      simp only [Stmt.supportedForest, Bool.and_eq_true] at hsup
      rw [exceptBind_error_iff] at h
      rcases h with h | ⟨t1, h1, h⟩
      · exact create_supported_no_notimpl s pd bd hsup.1 e h
      rw [exceptBind_error_iff] at h
      rcases h with h | ⟨ts1, h2, h⟩
      · exact create_list_supported_no_notimpl ss pd bd hsup.2 e h
      · exact Except.noConfusion h
termination_by sizeOf l

end

/-- A statement whose kind the dispatch rejects always produces the
`NotImplementedError` carrying exactly the node's kind name. -/
theorem create_unsupported_kind_error :
    ∀ s pd bd, s.isSupportedKind = false →
      create_cctree s pd bd = .error (.notImplemented s.kindName) := by
  intro s pd bd hu
  cases s with
  | exprStmt value lineno =>
      cases value with
      | call f args => simp [Stmt.isSupportedKind] at hu
      | _ => simp only [create_cctree, Stmt.kindName]
  | classDef name body lineno => simp only [create_cctree, Stmt.kindName]
  | otherStmt kind lineno => simp only [create_cctree, Stmt.kindName]
  | _ => simp [Stmt.isSupportedKind] at hu

/-- Children of a built statement node carry the parent's `branch_depth` plus
one exactly for the branch-introducing kinds (`if`/`for`/`while`); all other
statement kinds produce leaf nodes with no children at all. -/
theorem create_cctree_children_branch_depth :
    ∀ s pd bd t, create_cctree s pd bd = .ok t →
      ∀ c ∈ t.subtrees, c.branch_depth = bd + (if s.isBranching then 1 else 0) := by
  intro s pd bd t h
  cases s with
  | forS target iter body orelse lineno =>
      simp only [create_cctree] at h
      rw [exceptBind_ok_iff] at h
      obtain ⟨p1, h1, h⟩ := h
      rw [exceptBind_ok_iff] at h
      obtain ⟨ts, hts, h⟩ := h
      injection h with h
      subst h
      intro c hc
      simp only [CCTree.subtrees] at hc
      have := create_cctree_list_branch_depth _ _ _ _ hts c hc
      simp [Stmt.isBranching, this]
  | whileS test body orelse lineno =>
      simp only [create_cctree] at h
      rw [exceptBind_ok_iff] at h
      obtain ⟨p1, h1, h⟩ := h
      rw [exceptBind_ok_iff] at h
      obtain ⟨ts, hts, h⟩ := h
      injection h with h
      subst h
      intro c hc
      simp only [CCTree.subtrees] at hc
      have := create_cctree_list_branch_depth _ _ _ _ hts c hc
      simp [Stmt.isBranching, this]
  | ifS test body orelse lineno =>
      simp only [create_cctree] at h
      rw [exceptBind_ok_iff] at h
      obtain ⟨p1, h1, h⟩ := h
      rw [exceptBind_ok_iff] at h
      obtain ⟨ts1, hts1, h⟩ := h
      rw [exceptBind_ok_iff] at h
      obtain ⟨ts2, hts2, h⟩ := h
      injection h with h
      subst h
      intro c hc
      simp only [CCTree.subtrees] at hc
      rcases List.mem_append.mp hc with hc1 | hc2
      · have := create_cctree_list_branch_depth _ _ _ _ hts1 c hc1
        simp [Stmt.isBranching, this]
      · have := create_cctree_list_branch_depth _ _ _ _ hts2 c hc2
        simp [Stmt.isBranching, this]
  | _ =>
      simp only [create_cctree] at h <;>
      (repeat' first
        | (rw [exceptBind_ok_iff] at h; obtain ⟨_, _, h⟩ := h)
        | split at h) <;>
      first
      | exact Except.noConfusion h
      | (injection h with h; subst h; intro c hc; simp [CCTree.subtrees] at hc)

/-- Children of the module node carry the module's `branch_depth` unchanged. -/
theorem create_cctree_module_children_branch_depth :
    ∀ body pd bd t, create_cctree_module body pd bd = .ok t →
      ∀ c ∈ t.subtrees, c.branch_depth = bd := by
  intro body pd bd t h
  simp only [create_cctree_module] at h
  rw [exceptBind_ok_iff] at h
  obtain ⟨ts, hts, h⟩ := h
  injection h with h
  subst h
  intro c hc
  simp only [CCTree.subtrees] at hc
  exact create_cctree_list_branch_depth _ _ _ _ hts c hc

/-- The module node itself carries the `branch_depth` it was built with. -/
theorem create_cctree_module_branch_depth :
    ∀ body pd bd t, create_cctree_module body pd bd = .ok t → t.branch_depth = bd := by
  intro body pd bd t h
  simp only [create_cctree_module] at h
  rw [exceptBind_ok_iff] at h
  obtain ⟨ts, hts, h⟩ := h
  injection h with h
  subst h
  rfl

/-- Non-negativity of the two module-level scores, given non-negative build
arguments. -/
theorem create_cctree_module_scores_nonneg :
    ∀ body pd bd t, 0 ≤ pd → 0 ≤ bd → create_cctree_module body pd bd = .ok t →
      0 ≤ t.get_depth_plan ∧ 0 ≤ t.get_mpi := by
  intro body pd bd t hpd hbd h
  simp only [create_cctree_module] at h
  rw [exceptBind_ok_iff] at h
  obtain ⟨ts, hts, h⟩ := h
  injection h with h
  subst h
  have hchild := create_list_ok_scores_nonneg body pd bd hpd hbd ts hts
  constructor
  · exact get_depth_plan_nonneg_of _ _ _ _ _ hpd (fun c hc => (hchild c hc).1)
  · exact get_mpi_nonneg_of _ _ _ _ _ le_rfl (fun c hc => (hchild c hc).2)

/-! ## Claim theorems -/

/-- C1: the claim states that for every empty list or tuple literal,
`expression_depth` returns `(1, {})` and in particular does not fail.  The code
instead raises `ValueError` (`max()` over the empty element sequence of
`ast.List`/`ast.Tuple`), modelled by `none`: the evaluation at the failing
inputs shows the failure. -/
theorem C1_empty_container_value_error :
    expression_depth (.listLit []) = none ∧ expression_depth (.tupleLit []) = none := by
  constructor <;> simp [expression_depth]

/-- C2 (counterexample): the claim states the unsupported-construct failure
names both the node kind and its source line.  Building the same unsupported
statement placed at line 5 and at line 7 produces literally identical results
(the same `NotImplementedError` value carrying only the kind name), so no
component of the failure names the source line. -/
theorem C2_counterexample_error_has_no_line :
    create_cctree (.classDef "C" [] 5) 0 0 = .error (.notImplemented "ClassDef") ∧
    create_cctree (.classDef "C" [] 7) 0 0 = .error (.notImplemented "ClassDef") ∧
    create_cctree (.classDef "C" [] 5) 0 0 = create_cctree (.classDef "C" [] 7) 0 0 := by
  refine ⟨?_, ?_, ?_⟩ <;> simp [create_cctree]

/-- C2 (amended): a statement of a kind outside the supported closed set makes
the build fail with the `NotImplementedError` naming the node kind (but not its
line), and no result is returned; statements all of whose visited statements
are of supported kinds never produce this error (any failure is a different
exception). -/
theorem C2_amended_unsupported_construct :
    (∀ s pd bd, s.isSupportedKind = false →
        create_cctree s pd bd = .error (.notImplemented s.kindName)) ∧
    (∀ s pd bd e, s.supportedTree = true → create_cctree s pd bd = .error e →
        isNotImplementedError e = false) :=
  ⟨create_unsupported_kind_error,
   fun s pd bd e h1 h2 => create_supported_no_notimpl s pd bd h1 e h2⟩

/-- Witness for C2: the first part applied to a class definition, the second
part applied to the supported-kind statement `[] = 1` (an assignment with an
empty target list), which fails with `ValueError`, not `NotImplementedError`. -/
theorem C2_amended_witness :
    create_cctree (.classDef "C" [] 5) 0 0 = .error (.notImplemented "ClassDef") ∧
    isNotImplementedError CCError.valueError = false :=
  ⟨C2_amended_unsupported_construct.1 (.classDef "C" [] 5) 0 0 (by simp [Stmt.isSupportedKind]),
   C2_amended_unsupported_construct.2 (.assign [] .constant 1) 0 0 CCError.valueError
     (by simp [Stmt.supportedTree])
     (by simp [create_cctree, liftVE, liftVEs, expression_depth, expression_depth_each,
               bind, Except.bind])⟩

/-- C3: the claim states that with the exclusion flag set, every leaf
identifier in a pure store context is excluded at any nesting depth, including
inside tuple or list targets.  The code excludes only a top-level store `Name`
(second conjunct); the recursive calls drop the flag, so the store identifiers
inside a tuple target are returned anyway (first conjunct). -/
theorem C3_nested_store_identifiers_not_excluded :
    get_expression_identifiers (.tupleLit [.name "a" .store, .name "b" .store]) true
      = {"a", "b"} ∧
    get_expression_identifiers (.name "a" .store) true = ∅ := by
  constructor
  · simp [get_expression_identifiers, get_expression_identifiers_list]
    decide
  · simp [get_expression_identifiers]

/-- C4: the claim states a comparison combines like a binary operation with the
comparison's own operator tags unioned in.  The code instead unions in the
single tag `"list"` (`type(node.ops).__name__`, the type name of the comparator
list).  On `(a < b) == c` the code yields depth 2 with operator set `{"list"}`,
while the claimed rule (evaluated on the same child results,
`compare_rule_claimed`) yields depth 3 with the `Eq` tag in the set. -/
theorem C4_compare_unions_list_tag :
    expression_depth (.compare (.compare (.name "a" .load) ["Lt"] [.name "b" .load])
        ["Eq"] [.name "c" .load]) = some (2, {"list"}) ∧
    compare_rule_claimed (.compare (.name "a" .load) ["Lt"] [.name "b" .load])
        ["Eq"] [.name "c" .load] = some (3, {"list", "Eq"}) := by
  constructor
  · simp [expression_depth, expression_depth_list, expression_depth_each, natListMax]
  · simp [compare_rule_claimed, expression_depth, expression_depth_list,
          expression_depth_each, natListMax]
    decide

/-- C5: the module `x = 1` builds to a root with a single assignment leaf of
`plan_depth` 1 and `mpi` 0 (the store-only target is excluded from the
identifier set), and the module scores are `PlanDepth = 1`, `MPI = 0`. -/
theorem C5_assign_module_scores :
    create_cctree_module [.assign [.name "x" .store] .constant 1] 0 0
      = .ok (.mk 0 0 0 0 [.mk 1 1 0 0 []]) ∧
    compute_cccp [.assign [.name "x" .store] .constant 1] = .ok (1, 0) := by
  constructor <;>
    simp [compute_cccp, create_cctree_module, create_cctree_list, create_cctree,
          expression_depth, expression_depth_each, liftVE, liftVEs, natListMax,
          get_expression_identifiers, CCTree.get_depth_plan, CCTree.get_depth_plan_max,
          CCTree.get_mpi, CCTree.get_mpi_max, bind, Except.bind]

/-- C6: the aggregation recursions — a childless node returns its own
`plan_depth` (resp. `mpi`); a node with children returns the maximum of the
children's aggregate plan depth, independently of its own `plan_depth`
(fourth conjunct), while the mpi aggregate does include the node's own `mpi`
in the maximum. -/
theorem C6_aggregator_recursion :
    ∀ pd pd2 line bd m c cs,
      CCTree.get_depth_plan (.mk pd line bd m []) = pd ∧
      CCTree.get_mpi (.mk pd line bd m []) = m ∧
      CCTree.get_depth_plan (.mk pd line bd m (c :: cs)) = CCTree.get_depth_plan_max c cs ∧
      CCTree.get_depth_plan (.mk pd line bd m (c :: cs))
        = CCTree.get_depth_plan (.mk pd2 line bd m (c :: cs)) ∧
      CCTree.get_mpi (.mk pd line bd m (c :: cs)) = max m (CCTree.get_mpi_max c cs) := by
  intro pd pd2 line bd m c cs
  refine ⟨?_, ?_, ?_, ?_, ?_⟩ <;> simp [CCTree.get_depth_plan, CCTree.get_mpi]

/-- C7: for a module of supported constructs built at plan depth 0 and branch
depth 0, both resulting scores are non-negative, and the empty module builds to
the bare root whose PlanDepth is 0. -/
theorem C7_scores_nonneg :
    (∀ body t, Stmt.supportedForest body = true → create_cctree_module body 0 0 = .ok t →
        0 ≤ t.get_depth_plan ∧ 0 ≤ t.get_mpi) ∧
    (create_cctree_module [] 0 0 = .ok (.mk 0 0 0 0 []) ∧
      CCTree.get_depth_plan (.mk 0 0 0 0 []) = 0) := by
  refine ⟨fun body t _ h => create_cctree_module_scores_nonneg body 0 0 t le_rfl le_rfl h,
    ?_, ?_⟩
  · simp [create_cctree_module, create_cctree_list, bind, Except.bind]
  · simp [CCTree.get_depth_plan]

/-- Witness for C7: the non-negativity part applied to the one-statement module
`pass`. -/
theorem C7_scores_nonneg_witness :
    0 ≤ CCTree.get_depth_plan (.mk 0 0 0 0 [.mk 1 1 0 1 []]) ∧
    0 ≤ CCTree.get_mpi (.mk 0 0 0 0 [.mk 1 1 0 1 []]) :=
  C7_scores_nonneg.1 [.passS 1] (.mk 0 0 0 0 [.mk 1 1 0 1 []])
    (by simp [Stmt.supportedForest, Stmt.supportedTree])
    (by simp [create_cctree_module, create_cctree_list, create_cctree, bind, Except.bind])

/-- C8 (counterexample): the claim states that for an `if` nested inside an
`if` nested inside a `for`, every leaf statement has `branch_depth` 2.  For the
module `for i in xs: if c: if d: x = 4` the single leaf statement's node is
`CCTree.mk 7 4 3 3 []`: its `branch_depth` is 3, not 2. -/
theorem C8_counterexample_leaf_depth_three :
    create_cctree_module
        [.forS (.name "i" .store) (.name "xs" .load)
          [.ifS (.name "c" .load)
            [.ifS (.name "d" .load)
              [.assign [.name "x" .store] .constant 4] [] 3] [] 2] [] 1] 0 0
      = .ok (.mk 0 0 0 0 [.mk 2 1 0 2 [.mk 4 2 1 3 [.mk 6 3 2 4 [.mk 7 4 3 3 []]]]]) ∧
    CCTree.branch_depth (.mk 7 4 3 3 []) ≠ 2 := by
  constructor
  · simp [create_cctree_module, create_cctree_list, create_cctree,
          expression_depth, expression_depth_each, liftVE, liftVEs, natListMax,
          get_expression_identifiers, bind, Except.bind]
  · simp [CCTree.branch_depth]

/-- C8 (amended): a child's `branch_depth` equals its parent's `branch_depth`
plus 1 when the parent is an `if`, `for` or `while` node and equals the
module parent's `branch_depth` unchanged; consequently, for an `if` nested
inside an `if` nested inside a `for`, every leaf statement has
`branch_depth` 3 (the third conjunct builds that module; its only leaf is
`CCTree.mk 7 4 3 3 []`, with `branch_depth` 3). -/
theorem C8_amended_branch_depth_propagation :
    (∀ s pd bd t, create_cctree s pd bd = .ok t →
        ∀ c ∈ t.subtrees, c.branch_depth = t.branch_depth + (if s.isBranching then 1 else 0)) ∧
    (∀ body pd bd t, create_cctree_module body pd bd = .ok t →
        ∀ c ∈ t.subtrees, c.branch_depth = t.branch_depth) ∧
    create_cctree_module
        [.forS (.name "i" .store) (.name "xs" .load)
          [.ifS (.name "c" .load)
            [.ifS (.name "d" .load)
              [.assign [.name "x" .store] .constant 4] [] 3] [] 2] [] 1] 0 0
      = .ok (.mk 0 0 0 0 [.mk 2 1 0 2 [.mk 4 2 1 3 [.mk 6 3 2 4 [.mk 7 4 3 3 []]]]]) := by
  refine ⟨?_, ?_, ?_⟩
  · intro s pd bd t h c hc
    rw [create_cctree_branch_depth s pd bd t h]
    exact create_cctree_children_branch_depth s pd bd t h c hc
  · intro body pd bd t h c hc
    rw [create_cctree_module_branch_depth body pd bd t h]
    exact create_cctree_module_children_branch_depth body pd bd t h c hc
  · simp [create_cctree_module, create_cctree_list, create_cctree,
          expression_depth, expression_depth_each, liftVE, liftVEs, natListMax,
          get_expression_identifiers, bind, Except.bind]

/-- Witness for C8: the branching part applied to `if c: pass` built at branch
depth 0 — the leaf's `branch_depth` is the if-node's plus one. -/
theorem C8_amended_witness :
    CCTree.branch_depth (.mk 3 2 1 2 [])
      = CCTree.branch_depth (.mk 2 1 0 2 [.mk 3 2 1 2 []]) +
        (if Stmt.isBranching (.ifS (.name "c" .load) [.passS 2] [] 1) then 1 else 0) :=
  C8_amended_branch_depth_propagation.1 (.ifS (.name "c" .load) [.passS 2] [] 1) 0 0
    (.mk 2 1 0 2 [.mk 3 2 1 2 []])
    (by simp [create_cctree, create_cctree_list, expression_depth, liftVE,
              get_expression_identifiers, bind, Except.bind])
    (.mk 3 2 1 2 []) (by simp [CCTree.subtrees])

/-- C9: an expression-statement call with arguments whose callee is not a plain
identifier (here `obj.method(x)`) makes the build fail with the `TypeError`
raised by inserting an unhashable empty set — a failure distinct from the
unsupported-construct `NotImplementedError` — so the builder is not total on
the supported statement kinds. -/
theorem C9_method_call_type_error :
    create_cctree
        (.exprStmt (.call (.attribute (.name "obj" .load) "method") [.name "x" .load]) 1) 0 0
      = .error .typeError ∧
    isNotImplementedError CCError.typeError = false := by
  constructor
  · simp [create_cctree, expression_depth, expression_depth_each, liftVEs,
          natListMax, get_expression_identifiers, bind, Except.bind]
  · rfl

/-- C10: the `orelse` clause of a `for` or `while` statement is never read by
the builder: the built tree is the same whatever the `orelse` list holds (first
two conjuncts), and in particular a `while` whose `orelse` contains an
unsupported class definition still builds successfully, the `orelse`
contributing no child (third conjunct). -/
theorem C10_for_while_orelse_ignored :
    (∀ target iter body orelse1 orelse2 lineno pd bd,
        create_cctree (.forS target iter body orelse1 lineno) pd bd
          = create_cctree (.forS target iter body orelse2 lineno) pd bd) ∧
    (∀ test body orelse1 orelse2 lineno pd bd,
        create_cctree (.whileS test body orelse1 lineno) pd bd
          = create_cctree (.whileS test body orelse2 lineno) pd bd) ∧
    create_cctree (.whileS (.name "c" .load) [.passS 2] [.classDef "K" [] 3] 1) 0 0
      = .ok (.mk 2 1 0 2 [.mk 3 2 1 2 []]) := by
  refine ⟨?_, ?_, ?_⟩
  · intro target iter body orelse1 orelse2 lineno pd bd
    simp only [create_cctree]
  · intro test body orelse1 orelse2 lineno pd bd
    simp only [create_cctree]
  · simp [create_cctree, create_cctree_list, expression_depth, liftVE,
          get_expression_identifiers, bind, Except.bind]
